import Mathlib

/-!
Shallow embedding of `find_unhandled_reviews.py`, a single-file scanner that
reads `*.txt` review files, locates each file's last "ISSUE REVIEW" heading,
counts pending issue lines after it, and prints a report sorted by
modification time (newest first).

Strings are modelled as `List Char`; file modification times as `Int`
(`os.path.getmtime` returns a totally ordered numeric timestamp, and only its
ordering matters to the program).  Whitespace is modelled by the six ASCII
whitespace characters recognised both by Python's `str.strip()` and by the
regex class `\s` for the ASCII range.
-/

namespace FindUnhandledReviews

/-- Whitespace, as recognised by Python `str.strip()` and regex `\s`
(ASCII range). -/
def isSpace (c : Char) : Bool :=
  c = ' ' || c = '\t' || c = '\n' || c = '\x0d' || c = '\x0b' || c = '\x0c'

/-- Models Python `s.strip()`: remove leading and trailing whitespace. -/
def pyStrip (l : List Char) : List Char :=
  ((l.dropWhile isSpace).reverse.dropWhile isSpace).reverse

/-- Models Python `s.strip("=")`: remove leading and trailing `=` characters. -/
def stripEqs (l : List Char) : List Char :=
  ((l.dropWhile (· = '=')).reverse.dropWhile (· = '=')).reverse

/-- Models Python `s.startswith(pre)`. -/
def startsWith (pre l : List Char) : Bool :=
  decide (l.take pre.length = pre)

/-- Models line 25-26 of the source: a line qualifies as an "ISSUE REVIEW"
heading when `line.strip().strip("=").strip().upper() == "ISSUE REVIEW"`. -/
def isHeading (l : List Char) : Bool :=
  decide ((pyStrip (stripEqs (pyStrip l))).map Char.toUpper = "ISSUE REVIEW".data)

/-- Models `re.search(r'-\s*pending\s*$', t)`: the line ends with a hyphen,
optional whitespace, the literal word `pending`, and optional trailing
whitespace. -/
def endsWithDashPending (t : List Char) : Bool :=
  let r := t.reverse.dropWhile isSpace
  decide (r.take 7 = "pending".data.reverse) &&
    decide ((((r.drop 7).dropWhile isSpace).headD ' ') = '-')

/-- Models line 38 of the source: a line counts as pending when its stripped
form starts with `"- Issue"` and matches `re.search(r'-\s*pending\s*$', ...)`. -/
def isPendingLine (line : List Char) : Bool :=
  let t := pyStrip line
  startsWith "- Issue".data t && endsWithDashPending t

/-- Loop state of the heading scan (lines 23-27 of the source): `i` is the
current line index, `acc` the index of the last qualifying heading seen. -/
def lastHeadingIdxAux : List (List Char) → Nat → Option Nat → Option Nat
  | [], _, acc => acc
  | l :: ls, i, acc => lastHeadingIdxAux ls (i + 1) (if isHeading l then some i else acc)

/-- Index of the LAST "ISSUE REVIEW" heading, or `none` (lines 23-27). -/
def lastHeadingIdx (lines : List (List Char)) : Option Nat :=
  lastHeadingIdxAux lines 0 none

/-- Models lines 34-39: count pending lines in `lines[idx:]`. -/
def pendingCount (lines : List (List Char)) (idx : Nat) : Nat :=
  (lines.drop idx).countP isPendingLine

/-- One element of the `results` list: `(mtime, filepath, reason)`. -/
structure Finding where
  mtime : Int
  path : String
  reason : String
  deriving DecidableEq, Repr

/-- The data the per-file loop body reads for one matched file: its
modification time, its path, and its decoded content split into lines. -/
structure FileInput where
  mtime : Int
  path : String
  lines : List (List Char)
  deriving DecidableEq, Repr

/-- The reason string `f"has {pending_count} PENDING issue(s)"` (line 42). -/
def pendingReason (c : Nat) : String :=
  "has " ++ toString c ++ " PENDING issue(s)"

/-- Models the per-file loop body (lines 16-42): emit a MISSING finding when
no heading exists, a PENDING finding when the pending count is positive, and
nothing otherwise. -/
def classifyFile (f : FileInput) : Option Finding :=
  match lastHeadingIdx f.lines with
  | none => some ⟨f.mtime, f.path, "MISSING ISSUE REVIEW section"⟩
  | some idx =>
    let c := pendingCount f.lines idx
    if 0 < c then some ⟨f.mtime, f.path, pendingReason c⟩ else none

/-- Accumulation of findings over a list of discovered files, in discovery
order (lines 11-42: `results.append` inside the enumeration loops). -/
def scanAll (files : List FileInput) : List Finding :=
  files.filterMap classifyFile

lemma lastHeadingIdxAux_append (xs ys : List (List Char)) (i : Nat) (acc : Option Nat) :
    lastHeadingIdxAux (xs ++ ys) i acc =
      lastHeadingIdxAux ys (i + xs.length) (lastHeadingIdxAux xs i acc) := by
  induction xs generalizing i acc with
  | nil => simp [lastHeadingIdxAux]
  | cons l ls ih =>
    show lastHeadingIdxAux (ls ++ ys) (i + 1) (if isHeading l then some i else acc) =
      lastHeadingIdxAux ys (i + (ls.length + 1))
        (lastHeadingIdxAux ls (i + 1) (if isHeading l then some i else acc))
    rw [ih]
    congr 1
    omega

lemma lastHeadingIdxAux_of_no_heading (ls : List (List Char)) (i : Nat) (acc : Option Nat)
    (h : ∀ l ∈ ls, isHeading l = false) : lastHeadingIdxAux ls i acc = acc := by
  induction ls generalizing i with
  | nil => rfl
  | cons l t ih =>
    have hl : isHeading l = false := h l (by simp)
    simp only [lastHeadingIdxAux, hl, Bool.false_eq_true, if_false]
    exact ih (i + 1) fun x hx => h x (by simp [hx])

lemma lastHeadingIdx_append_heading (pre post : List (List Char)) (h : List Char)
    (hh : isHeading h = true) (hp : ∀ l ∈ post, isHeading l = false) :
    lastHeadingIdx (pre ++ h :: post) = some pre.length := by
  unfold lastHeadingIdx
  rw [lastHeadingIdxAux_append]
  simp only [lastHeadingIdxAux, hh, if_true, Nat.zero_add]
  exact lastHeadingIdxAux_of_no_heading post _ _ hp

/-- C2: when the lines of a file consist of anything (`pre` — possibly holding
earlier qualifying headings and pending-looking lines), then a qualifying
heading `h` after which no line qualifies as a heading, the classification of
the file equals the classification of `h :: post` alone: only lines from the
last qualifying heading's index onward are considered, and a pending-matching
line appearing only before that heading contributes nothing. -/
theorem last_heading_restricts_scan (m : Int) (p : String)
    (pre post : List (List Char)) (h : List Char)
    (hh : isHeading h = true) (hp : ∀ l ∈ post, isHeading l = false) :
    classifyFile ⟨m, p, pre ++ h :: post⟩ = classifyFile ⟨m, p, h :: post⟩ := by
  have h1 : lastHeadingIdx (pre ++ h :: post) = some pre.length :=
    lastHeadingIdx_append_heading pre post h hh hp
  have h2 : lastHeadingIdx (h :: post) = some 0 := by
    simpa using lastHeadingIdx_append_heading [] post h hh hp
  have hd : (pre ++ h :: post).drop pre.length = h :: post := List.drop_left pre (h :: post)
  simp only [classifyFile, h1, h2, pendingCount, hd, List.drop_zero]

/-- Witness for C2: the pending-looking line (and an earlier heading) in `pre`
do not influence the result. -/
theorem last_heading_restricts_scan_witness :
    classifyFile ⟨0, "f",
      ["=== ISSUE REVIEW ===".data, "- Issue 1: x - pending".data] ++
        "ISSUE REVIEW".data :: ["- Issue 1: x - resolved".data]⟩ =
    classifyFile ⟨0, "f", "ISSUE REVIEW".data :: ["- Issue 1: x - resolved".data]⟩ :=
  last_heading_restricts_scan 0 "f"
    ["=== ISSUE REVIEW ===".data, "- Issue 1: x - pending".data]
    ["- Issue 1: x - resolved".data] "ISSUE REVIEW".data (by decide) (by decide)

/-- C4: a file none of whose lines qualifies as an "ISSUE REVIEW" heading is
reported with exactly one Finding, reason `"MISSING ISSUE REVIEW section"`. -/
theorem missing_heading_reported (m : Int) (p : String) (lines : List (List Char))
    (hno : ∀ l ∈ lines, isHeading l = false) :
    classifyFile ⟨m, p, lines⟩ = some ⟨m, p, "MISSING ISSUE REVIEW section"⟩ := by
  have h1 : lastHeadingIdx lines = none := lastHeadingIdxAux_of_no_heading lines 0 none hno
  simp [classifyFile, h1]

/-- Witness for C4 at a concrete file with no heading. -/
theorem missing_heading_reported_witness :
    classifyFile ⟨0, "f", ["hello".data, "- Issue 1: x - pending".data]⟩ =
      some ⟨0, "f", "MISSING ISSUE REVIEW section"⟩ :=
  missing_heading_reported 0 "f" ["hello".data, "- Issue 1: x - pending".data] (by decide)

/-- C7: when a heading is found, a pending count of zero produces no Finding,
and a positive pending count produces the Finding
`has {count} PENDING issue(s)`. -/
theorem clean_file_not_reported (f : FileInput) (idx : Nat)
    (hidx : lastHeadingIdx f.lines = some idx) :
    (pendingCount f.lines idx = 0 → classifyFile f = none) ∧
    (0 < pendingCount f.lines idx →
      classifyFile f = some ⟨f.mtime, f.path, pendingReason (pendingCount f.lines idx)⟩) := by
  constructor <;> intro hc <;> simp [classifyFile, hidx, hc]

/-- Witness for C7: a file whose review section has no pending line is not
reported. -/
theorem clean_file_not_reported_witness :
    classifyFile ⟨0, "f", ["ISSUE REVIEW".data, "- Issue 1: x - resolved".data]⟩ = none :=
  (clean_file_not_reported ⟨0, "f", ["ISSUE REVIEW".data, "- Issue 1: x - resolved".data]⟩
    0 (by decide)).1 (by decide)

/-- C6: the spec's end-to-end scenario B, for any modification time and path:
heading `=== ISSUE REVIEW ===`, one pending line and one resolved line yield
exactly one Finding with reason `has 1 PENDING issue(s)`. -/
theorem scenario_b_single_pending (m : Int) (p : String) :
    classifyFile ⟨m, p,
      ["=== ISSUE REVIEW ===".data, "- Issue 1: foo - pending".data,
       "- Issue 2: bar - resolved".data]⟩ =
    some ⟨m, p, "has 1 PENDING issue(s)"⟩ := by
  have h1 : lastHeadingIdx
      ["=== ISSUE REVIEW ===".data, "- Issue 1: foo - pending".data,
       "- Issue 2: bar - resolved".data] = some 0 := by decide
  have h2 : pendingCount
      ["=== ISSUE REVIEW ===".data, "- Issue 1: foo - pending".data,
       "- Issue 2: bar - resolved".data] 0 = 1 := by decide
  have h3 : pendingReason 1 = "has 1 PENDING issue(s)" := by decide
  simp [classifyFile, h1, h2, h3]

/-- The pending-line rule exactly as the claim words it: the trimmed form
starts with `"- Issue"` and ends with optional whitespace, the word
`pending`, and optional trailing whitespace anchored at end of line (regex
`\s*pending\s*$`) — with no hyphen required before `pending`.  This follows
the spec's words and is compared against `isPendingLine`, which follows the
source. -/
def claimedPendingLine (line : List Char) : Bool :=
  let t := pyStrip line
  startsWith "- Issue".data t &&
    decide ((t.reverse.dropWhile isSpace).take 7 = "pending".data.reverse)

/-- C1 counterexample: on the line `"- Issue 3: pending"` the claim's rule
counts one pending issue, but the source's rule
(`re.search(r'-\s*pending\s*$', ...)`, which demands a hyphen before
`pending`) does not, so a file whose review section holds exactly this line
is not reported at all. -/
theorem pending_rule_counterexample :
    claimedPendingLine "- Issue 3: pending".data = true ∧
    isPendingLine "- Issue 3: pending".data = false ∧
    classifyFile ⟨0, "f", ["=== ISSUE REVIEW ===".data, "- Issue 3: pending".data]⟩ = none := by
  decide

lemma startsWith_iff (pre t : List Char) :
    startsWith pre t = true ↔ ∃ r, t = pre ++ r := by
  simp only [startsWith, decide_eq_true_eq]
  constructor
  · intro h
    refine ⟨t.drop pre.length, ?_⟩
    conv_lhs => rw [← List.take_append_drop pre.length t]
    rw [h]
  · rintro ⟨r, rfl⟩
    exact List.take_left pre r

lemma dropWhile_append_of_all {p : Char → Bool} (a l : List Char)
    (h : ∀ c ∈ a, p c = true) : (a ++ l).dropWhile p = l.dropWhile p := by
  induction a with
  | nil => rfl
  | cons c t ih =>
    rw [List.cons_append, List.dropWhile_cons, if_pos (h c (by simp))]
    exact ih fun x hx => h x (by simp [hx])

lemma pendingRev_eq : "pending".data.reverse = 'g' :: "nidnep".data := by decide

lemma endsWithDashPending_iff (t : List Char) :
    endsWithDashPending t = true ↔
      ∃ u v w, t = u ++ '-' :: (v ++ "pending".data ++ w) ∧
        (∀ c ∈ v, isSpace c = true) ∧ (∀ c ∈ w, isSpace c = true) := by
  simp only [endsWithDashPending, Bool.and_eq_true, decide_eq_true_eq]
  constructor
  · rintro ⟨h1, h2⟩
    have hsplit1 : t.reverse = t.reverse.takeWhile isSpace ++ t.reverse.dropWhile isSpace :=
      (List.takeWhile_append_dropWhile _ _).symm
    have hsplit2 : t.reverse.dropWhile isSpace =
        "pending".data.reverse ++ (t.reverse.dropWhile isSpace).drop 7 := by
      conv_lhs => rw [← List.take_append_drop 7 (t.reverse.dropWhile isSpace)]
      rw [h1]
    cases hm : ((t.reverse.dropWhile isSpace).drop 7).dropWhile isSpace with
    | nil =>
      rw [hm] at h2
      exact absurd h2 (by decide)
    | cons c u' =>
      rw [hm] at h2
      have hc : c = '-' := by simpa using h2
      subst hc
      have hsplit3 : (t.reverse.dropWhile isSpace).drop 7 =
          ((t.reverse.dropWhile isSpace).drop 7).takeWhile isSpace ++ ('-' :: u') := by
        conv_lhs =>
          rw [← List.takeWhile_append_dropWhile isSpace ((t.reverse.dropWhile isSpace).drop 7)]
        rw [hm]
      have hT : t.reverse =
          t.reverse.takeWhile isSpace ++ ("pending".data.reverse ++
            (((t.reverse.dropWhile isSpace).drop 7).takeWhile isSpace ++ ('-' :: u'))) := by
        conv_lhs => rw [hsplit1]
        conv_lhs => rw [hsplit2]
        conv_lhs => rw [hsplit3]
      refine ⟨u'.reverse, (((t.reverse.dropWhile isSpace).drop 7).takeWhile isSpace).reverse,
        (t.reverse.takeWhile isSpace).reverse, ?_, ?_, ?_⟩
      · have hrev := congrArg List.reverse hT
        rw [List.reverse_reverse] at hrev
        refine hrev.trans ?_
        simp [List.reverse_append]
      · intro c hc2
        rw [List.mem_reverse] at hc2
        exact List.mem_takeWhile_imp hc2
      · intro c hc2
        rw [List.mem_reverse] at hc2
        exact List.mem_takeWhile_imp hc2
  · rintro ⟨u, v, w, ht, hv, hw⟩
    have hrev : t.reverse =
        w.reverse ++ ("pending".data.reverse ++ (v.reverse ++ ('-' :: u.reverse))) := by
      rw [ht]
      simp [List.reverse_append]
    have hdw : t.reverse.dropWhile isSpace =
        "pending".data.reverse ++ (v.reverse ++ ('-' :: u.reverse)) := by
      rw [hrev, dropWhile_append_of_all w.reverse _
        (fun c hc => hw c (List.mem_reverse.mp hc))]
      rw [pendingRev_eq, List.cons_append, List.dropWhile_cons, if_neg (by decide),
        ← List.cons_append, ← pendingRev_eq]
    constructor
    · rw [hdw]
      rw [show (7 : Nat) = ("pending".data.reverse).length from by decide]
      exact List.take_left _ _
    · rw [hdw]
      rw [show (7 : Nat) = ("pending".data.reverse).length from by decide, List.drop_left]
      rw [dropWhile_append_of_all v.reverse _ (fun c hc => hv c (List.mem_reverse.mp hc))]
      rw [List.dropWhile_cons, if_neg (by decide)]
      rfl

/-- C1 amended: within the scanned subsequence a line is counted as one
pending issue (`isPendingLine`, the predicate `pendingCount` counts) iff its
whitespace-trimmed form starts with the literal `"- Issue"` and ends with a
hyphen, optional whitespace, the word `pending` (case-sensitive), and
optional trailing whitespace anchored at end of line. -/
theorem pending_rule_characterisation (line : List Char) :
    isPendingLine line = true ↔
      ((∃ rest, pyStrip line = "- Issue".data ++ rest) ∧
        ∃ u v w, pyStrip line = u ++ '-' :: (v ++ "pending".data ++ w) ∧
          (∀ c ∈ v, isSpace c = true) ∧ (∀ c ∈ w, isSpace c = true)) := by
  simp only [isPendingLine, Bool.and_eq_true]
  rw [startsWith_iff, endsWithDashPending_iff]

/-- The comparison behind line 45 of the source,
`results.sort(key=lambda x: x[0], reverse=True)`: `a` may stay before `b`
exactly when `b`'s modification time is at most `a`'s. -/
def mtimeGe (a b : Finding) : Prop := b.mtime ≤ a.mtime

instance : DecidableRel mtimeGe := fun a b => inferInstanceAs (Decidable (b.mtime ≤ a.mtime))

instance : IsTotal Finding mtimeGe := ⟨fun a b => le_total b.mtime a.mtime⟩

instance : IsTrans Finding mtimeGe := ⟨fun _ _ _ h1 h2 => le_trans h2 h1⟩

/-- Models `results.sort(key=lambda x: x[0], reverse=True)` (line 45).
Python's `list.sort` is documented stable; with `reverse=True` it orders by
descending key while keeping elements with equal keys in their original
relative order.  A stable insertion sort under `mtimeGe` realises exactly
that specification. -/
def sortFindings (l : List Finding) : List Finding := List.insertionSort mtimeGe l

/-- The findings of a run, in the order the report prints them. -/
def sortedResults (files : List FileInput) : List Finding := sortFindings (scanAll files)

/-- C5: the reported findings are sorted by non-increasing modification time,
are a permutation of the accumulated findings, and whenever entry `i` has a
strictly larger modification time than entry `j` it is listed earlier. -/
theorem report_sorted_descending (files : List FileInput) :
    (sortedResults files).Sorted mtimeGe ∧
    (sortedResults files).Perm (scanAll files) ∧
    ∀ (i j : Nat) (hi : i < (sortedResults files).length)
      (hj : j < (sortedResults files).length),
      ((sortedResults files).get ⟨j, hj⟩).mtime < ((sortedResults files).get ⟨i, hi⟩).mtime →
        i < j := by
  refine ⟨List.sorted_insertionSort mtimeGe (scanAll files),
    List.perm_insertionSort mtimeGe (scanAll files), ?_⟩
  intro i j hi hj hlt
  by_contra hij
  rcases Nat.lt_or_ge j i with hji | hge
  · have hrel := (List.sorted_insertionSort mtimeGe (scanAll files)).rel_get_of_lt
      (a := ⟨j, hj⟩) (b := ⟨i, hi⟩) hji
    exact absurd hlt (not_lt.mpr hrel)
  · have hij2 : i = j := Nat.le_antisymm hge (Nat.le_of_not_lt hij)
    subst hij2
    exact absurd hlt (lt_irrefl _)

/-- A file with no heading, modified at time 5. -/
def sampleFileA : FileInput := ⟨5, "a", ["x".data]⟩

/-- A file with no heading, modified at time 3. -/
def sampleFileB : FileInput := ⟨3, "b", ["y".data]⟩

/-- Witness for C5: on a concrete run the later-modified file is listed first. -/
theorem report_sorted_descending_witness :
    (sortedResults [sampleFileB, sampleFileA]).Sorted mtimeGe ∧ (0 : Nat) < 1 :=
  ⟨(report_sorted_descending [sampleFileB, sampleFileA]).1,
   (report_sorted_descending [sampleFileB, sampleFileA]).2.2 0 1
     (by decide) (by decide) (by decide)⟩

lemma filter_orderedInsert_mtime (v : Int) (a : Finding) (l : List Finding) :
    (List.orderedInsert mtimeGe a l).filter (fun fd => decide (fd.mtime = v)) =
      if a.mtime = v then a :: l.filter (fun fd => decide (fd.mtime = v))
      else l.filter (fun fd => decide (fd.mtime = v)) := by
  induction l with
  | nil =>
    by_cases hav : a.mtime = v <;> simp [List.orderedInsert, List.filter, hav]
  | cons b t ih =>
    rw [List.orderedInsert]
    by_cases hab : mtimeGe a b
    · rw [if_pos hab, List.filter_cons]
      by_cases hav : a.mtime = v <;> simp [hav, List.filter_cons]
    · rw [if_neg hab, List.filter_cons]
      by_cases hav : a.mtime = v
      · have hgt : a.mtime < b.mtime := not_le.mp hab
        have hb : b.mtime ≠ v := by
          rw [← hav]
          exact ne_of_gt hgt
        simp [ih, hav, hb, List.filter_cons]
      · simp [ih, hav, List.filter_cons]

lemma filter_insertionSort_mtime (v : Int) (l : List Finding) :
    (List.insertionSort mtimeGe l).filter (fun fd => decide (fd.mtime = v)) =
      l.filter (fun fd => decide (fd.mtime = v)) := by
  induction l with
  | nil => rfl
  | cons a t ih =>
    rw [List.insertionSort, filter_orderedInsert_mtime]
    by_cases hav : a.mtime = v <;> simp [hav, List.filter_cons, ih]

/-- C10: among findings with equal modification time `v`, the printed order
equals the discovery order of the scan — all findings from the first
configured subdirectory's files (`fs1`) before those of the second (`fs2`),
each block in enumeration order — because the descending sort is stable. -/
theorem equal_mtime_stable_order (fs1 fs2 : List FileInput) (v : Int) :
    (sortFindings (scanAll (fs1 ++ fs2))).filter (fun fd => decide (fd.mtime = v)) =
      (scanAll fs1).filter (fun fd => decide (fd.mtime = v)) ++
        (scanAll fs2).filter (fun fd => decide (fd.mtime = v)) := by
  simp only [sortFindings, scanAll]
  rw [filter_insertionSort_mtime, List.filterMap_append, List.filter_append]

/-- The fixed base directory (line 8). -/
def BASE : String := "/home/artur/keep.ai"

/-- The two configured subdirectory names (line 9). -/
def DIRS : List String := ["reviews", "ux-tests"]

/-- Broken-down local time, as produced by `datetime.fromtimestamp`. -/
structure DateTime where
  year : Nat
  month : Nat
  day : Nat
  hour : Nat
  minute : Nat
  deriving DecidableEq, Repr

/-- Zero-pad the decimal form of `n` on the left to width `w`. -/
def padZero (w n : Nat) : String :=
  ⟨List.replicate (w - (toString n).length) '0'⟩ ++ toString n

/-- Models `strftime("%Y-%m-%d %H:%M")` (line 54) on a broken-down time. -/
def strftimeYmdHM (t : DateTime) : String :=
  padZero 4 t.year ++ "-" ++ padZero 2 t.month ++ "-" ++ padZero 2 t.day ++ " " ++
    padZero 2 t.hour ++ ":" ++ padZero 2 t.minute

/-- Models the Python format spec `{s:<35s}` generalised to width `w`: the
string left-justified, padded on the right with spaces up to a minimum width,
and never truncated. -/
def ljust (w : Nat) (s : String) : String :=
  s ++ ⟨List.replicate (w - s.length) ' '⟩

/-- Models `os.path.relpath(filepath, BASE)` (line 52) for the paths this
program produces: every matched path has the form `BASE/<subdir>/<name>`
(built by `os.path.join(BASE, d, "*.txt")`, line 14), and for paths under
`BASE`, `relpath` strips the base prefix and its separator. -/
def relpath (path : String) : String :=
  if startsWith (BASE ++ "/").data path.data then ⟨path.data.drop (BASE.length + 1)⟩
  else path

/-- Models the print statement on line 55,
`print(f"  {ts}  {rel:<35s}  {reason}")`, with `ts` from
`datetime.fromtimestamp(mtime).strftime("%Y-%m-%d %H:%M")` (lines 53-54).
The conversion of the numeric timestamp to broken-down local time depends on
the host clock/timezone and is passed in as `localtime`. -/
def reportLine (localtime : Int → DateTime) (fd : Finding) : String :=
  "  " ++ strftimeYmdHM (localtime fd.mtime) ++ "  " ++ ljust 35 (relpath fd.path) ++
    "  " ++ fd.reason

/-- The all-clear sentence (line 48). -/
def allClearMsg : String := "All review files are fully handled!"

/-- The header `f"Found {len(results)} file(s) needing attention:"` (line 50). -/
def headerMsg (n : Nat) : String := "Found " ++ toString n ++ " file(s) needing attention:"

/-- Models lines 44-55: sort the findings, then print either the all-clear
sentence, or the header followed by a blank line (the trailing `\n` of the
header f-string) and one report line per finding, as a list of output lines. -/
def output (localtime : Int → DateTime) (files : List FileInput) : List String :=
  let results := sortedResults files
  if results.isEmpty then [allClearMsg]
  else headerMsg results.length :: "" :: results.map (reportLine localtime)

/-- C3 amended: each report line is the minute-precision local timestamp
`YYYY-MM-DD HH:MM`, then the path relative to the base directory
left-justified — padded on the right with spaces to a minimum column width of
35 and never truncated — then the reason string, with two-space separators. -/
theorem report_line_format (localtime : Int → DateTime) (fd : Finding) :
    ∃ pad : String,
      reportLine localtime fd =
        "  " ++ strftimeYmdHM (localtime fd.mtime) ++ "  " ++
          (relpath fd.path ++ pad) ++ "  " ++ fd.reason ∧
      (∀ c ∈ pad.data, c = ' ') ∧
      (relpath fd.path).length + pad.length = max 35 (relpath fd.path).length := by
  refine ⟨⟨List.replicate (35 - (relpath fd.path).length) ' '⟩, rfl, ?_, ?_⟩
  · intro c hc
    exact List.eq_of_mem_replicate hc
  · have h1 : (String.mk (List.replicate (35 - (relpath fd.path).length) ' ')).length
        = 35 - (relpath fd.path).length := by
      show (List.replicate (35 - (relpath fd.path).length) ' ').length = _
      exact List.length_replicate _ _
    rw [h1]
    omega

/-- Left-pad with spaces to width `w`, truncating to `w` when longer. -/
def rjustTrunc (w : Nat) (s : String) : String :=
  if w ≤ s.length then ⟨s.data.take w⟩ else ⟨List.replicate (w - s.length) ' '⟩ ++ s

/-- The report line as the claim words it (spec words): the relative path
left-padded or truncated to the fixed column width of 35.  This follows the
claim's text and is compared against `reportLine`, which follows the source. -/
def reportLineClaimed (localtime : Int → DateTime) (fd : Finding) : String :=
  "  " ++ strftimeYmdHM (localtime fd.mtime) ++ "  " ++ rjustTrunc 35 (relpath fd.path) ++
    "  " ++ fd.reason

/-- A fixed broken-down-time function for concrete evaluations. -/
def sampleLocaltime : Int → DateTime := fun _ => ⟨2024, 5, 6, 7, 8⟩

/-- A finding whose relative path is shorter than the column width. -/
def sampleShortPath : Finding :=
  ⟨0, "/home/artur/keep.ai/reviews/a.txt", "has 1 PENDING issue(s)"⟩

/-- A finding whose relative path is longer than the column width. -/
def sampleLongPath : Finding :=
  ⟨0, "/home/artur/keep.ai/reviews/a-very-long-review-file-name-from-august.txt",
    "has 1 PENDING issue(s)"⟩

/-- C3 counterexample: the actual report line differs from the claimed
left-padded form on a short path (the code pads on the right), and from the
claimed truncated form on a long path (the code never truncates). -/
theorem report_line_format_counterexample :
    reportLine sampleLocaltime sampleShortPath ≠
      reportLineClaimed sampleLocaltime sampleShortPath ∧
    reportLine sampleLocaltime sampleLongPath ≠
      reportLineClaimed sampleLocaltime sampleLongPath := by
  decide

/-- C8: the console output takes exactly one of two shapes — the single
all-clear sentence when there are no findings (in particular when no files
were discovered at all), or the count header, a blank line, and one report
line per finding in sorted order. -/
theorem output_shapes :
    (∀ (localtime : Int → DateTime) (files : List FileInput),
      (scanAll files = [] → output localtime files = [allClearMsg]) ∧
      (scanAll files ≠ [] →
        output localtime files =
          headerMsg (scanAll files).length :: "" ::
            (sortedResults files).map (reportLine localtime) ∧
        ((sortedResults files).map (reportLine localtime)).length =
          (scanAll files).length)) ∧
    scanAll ([] : List FileInput) = [] := by
  refine ⟨fun localtime files => ?_, rfl⟩
  have hlen : (sortedResults files).length = (scanAll files).length :=
    List.length_insertionSort mtimeGe (scanAll files)
  constructor
  · intro h
    simp [output, sortedResults, sortFindings, h]
  · intro h
    have hne : sortedResults files ≠ [] := by
      intro hnil
      rw [hnil] at hlen
      exact h (List.length_eq_zero.mp hlen.symm)
    constructor
    · simp only [output]
      rw [if_neg (by simpa [List.isEmpty_iff] using hne), hlen]
    · rw [List.length_map, hlen]

/-- Witness for C8: both output shapes at concrete inputs. -/
theorem output_shapes_witness :
    output sampleLocaltime [] = [allClearMsg] ∧
    output sampleLocaltime [sampleFileA] =
      headerMsg (scanAll [sampleFileA]).length :: "" ::
        (sortedResults [sampleFileA]).map (reportLine sampleLocaltime) :=
  ⟨(output_shapes.1 sampleLocaltime []).1 rfl,
   ((output_shapes.1 sampleLocaltime [sampleFileA]).2 (by decide)).1⟩

/-- Line boundaries recognised by Python `str.splitlines()` other than the
two-character sequence `"\r\n"`. -/
def isLineSep (c : Char) : Bool :=
  c = '\n' || c = '\x0d' || c = '\x0b' || c = '\x0c' ||
    c = '\x1c' || c = '\x1d' || c = '\x1e' || c = '\x85' || c = ' ' || c = ' '

/-- Accumulator loop behind `splitlines`: `acc` holds the current line in
reverse.  A trailing separator does not open a final empty line. -/
def splitAux : List Char → List Char → List (List Char)
  | [], acc => if acc.isEmpty then [] else [acc.reverse]
  | '\x0d' :: '\n' :: rest, acc => acc.reverse :: splitAux rest []
  | c :: rest, acc =>
    if isLineSep c then acc.reverse :: splitAux rest []
    else splitAux rest (c :: acc)

/-- Models Python `content.splitlines()` (line 20). -/
def splitlines (cs : List Char) : List (List Char) := splitAux cs []

/-- The Unicode replacement character U+FFFD. -/
def replChar : Char := Char.ofNat 0xFFFD

/-- A UTF-8 continuation byte. -/
def isCont (b : Nat) : Bool := decide (0x80 ≤ b) && decide (b ≤ 0xBF)

/-- Valid second byte of a three-byte UTF-8 sequence with lead byte `b`
(excluding overlong forms and surrogates). -/
def cont2Ok (b b2 : Nat) : Bool :=
  if b = 0xE0 then decide (0xA0 ≤ b2) && decide (b2 ≤ 0xBF)
  else if b = 0xED then decide (0x80 ≤ b2) && decide (b2 ≤ 0x9F)
  else isCont b2

/-- Valid second byte of a four-byte UTF-8 sequence with lead byte `b`
(excluding overlong forms and values beyond U+10FFFF). -/
def cont3Ok (b b2 : Nat) : Bool :=
  if b = 0xF0 then decide (0x90 ≤ b2) && decide (b2 ≤ 0xBF)
  else if b = 0xF4 then decide (0x80 ≤ b2) && decide (b2 ≤ 0x8F)
  else isCont b2

/-- Models decoding the file with
`open(filepath, "r", encoding="utf-8", errors="replace")` (line 17): strict
UTF-8 where every invalid or truncated sequence is replaced by U+FFFD and
decoding resumes at the offending byte, so decoding never fails. -/
def utf8DecodeReplace : List Nat → List Char
  | [] => []
  | b :: rest =>
    if b < 0x80 then Char.ofNat b :: utf8DecodeReplace rest
    else if b < 0xC2 then replChar :: utf8DecodeReplace rest
    else if b ≤ 0xDF then
      match rest with
      | [] => [replChar]
      | b2 :: rest2 =>
        if isCont b2 then
          Char.ofNat ((b - 0xC0) * 0x40 + (b2 - 0x80)) :: utf8DecodeReplace rest2
        else replChar :: utf8DecodeReplace (b2 :: rest2)
    else if b ≤ 0xEF then
      match rest with
      | [] => [replChar]
      | b2 :: rest2 =>
        if cont2Ok b b2 then
          match rest2 with
          | [] => [replChar]
          | b3 :: rest3 =>
            if isCont b3 then
              Char.ofNat ((b - 0xE0) * 0x1000 + (b2 - 0x80) * 0x40 + (b3 - 0x80)) ::
                utf8DecodeReplace rest3
            else replChar :: utf8DecodeReplace (b3 :: rest3)
        else replChar :: utf8DecodeReplace (b2 :: rest2)
    else if b ≤ 0xF4 then
      match rest with
      | [] => [replChar]
      | b2 :: rest2 =>
        if cont3Ok b b2 then
          match rest2 with
          | [] => [replChar]
          | b3 :: rest3 =>
            if isCont b3 then
              match rest3 with
              | [] => [replChar]
              | b4 :: rest4 =>
                if isCont b4 then
                  Char.ofNat ((b - 0xF0) * 0x40000 + (b2 - 0x80) * 0x1000 +
                      (b3 - 0x80) * 0x40 + (b4 - 0x80)) :: utf8DecodeReplace rest4
                else replChar :: utf8DecodeReplace (b4 :: rest4)
            else replChar :: utf8DecodeReplace (b3 :: rest3)
        else replChar :: utf8DecodeReplace (b2 :: rest2)
    else replChar :: utf8DecodeReplace rest
  termination_by l => l.length
  decreasing_by all_goals (simp <;> omega)

/-- Strict UTF-8 decoding, which fails on the inputs that `errors="replace"`
recovers from. -/
def utf8DecodeStrict : List Nat → Option (List Char)
  | [] => some []
  | b :: rest =>
    if b < 0x80 then (utf8DecodeStrict rest).map (Char.ofNat b :: ·)
    else if b < 0xC2 then none
    else if b ≤ 0xDF then
      match rest with
      | [] => none
      | b2 :: rest2 =>
        if isCont b2 then
          (utf8DecodeStrict rest2).map (Char.ofNat ((b - 0xC0) * 0x40 + (b2 - 0x80)) :: ·)
        else none
    else if b ≤ 0xEF then
      match rest with
      | [] => none
      | b2 :: rest2 =>
        if cont2Ok b b2 then
          match rest2 with
          | [] => none
          | b3 :: rest3 =>
            if isCont b3 then
              (utf8DecodeStrict rest3).map
                (Char.ofNat ((b - 0xE0) * 0x1000 + (b2 - 0x80) * 0x40 + (b3 - 0x80)) :: ·)
            else none
        else none
    else if b ≤ 0xF4 then
      match rest with
      | [] => none
      | b2 :: rest2 =>
        if cont3Ok b b2 then
          match rest2 with
          | [] => none
          | b3 :: rest3 =>
            if isCont b3 then
              match rest3 with
              | [] => none
              | b4 :: rest4 =>
                if isCont b4 then
                  (utf8DecodeStrict rest4).map
                    (Char.ofNat ((b - 0xF0) * 0x40000 + (b2 - 0x80) * 0x1000 +
                      (b3 - 0x80) * 0x40 + (b4 - 0x80)) :: ·)
                else none
            else none
        else none
    else none

/-- Models lines 16-42 for one file starting from its raw bytes: decode with
replacement, split into lines, classify. -/
def classifyBytes (m : Int) (p : String) (bytes : List Nat) : Option Finding :=
  classifyFile ⟨m, p, splitlines (utf8DecodeReplace bytes)⟩

lemma classifyFile_shape (f : FileInput) :
    classifyFile f = none ∨
    classifyFile f = some ⟨f.mtime, f.path, "MISSING ISSUE REVIEW section"⟩ ∨
    ∃ c, 0 < c ∧ classifyFile f = some ⟨f.mtime, f.path, pendingReason c⟩ := by
  unfold classifyFile
  cases lastHeadingIdx f.lines with
  | none => exact Or.inr (Or.inl rfl)
  | some idx =>
    by_cases h : 0 < pendingCount f.lines idx
    · exact Or.inr (Or.inr ⟨pendingCount f.lines idx, h, by simp [h]⟩)
    · exact Or.inl (by simp [h])

/-- C9: decoding never fails — every byte sequence is classified, and only
with one of the two normal reasons; the byte `0xFF` is undecodable (strict
decoding fails) yet the replacing decode turns it into U+FFFD and the file is
classified normally from the replaced text. -/
theorem lossy_decode_policy :
    (∀ (m : Int) (p : String) (bytes : List Nat),
      classifyBytes m p bytes = none ∨
      classifyBytes m p bytes = some ⟨m, p, "MISSING ISSUE REVIEW section"⟩ ∨
      ∃ c, 0 < c ∧ classifyBytes m p bytes = some ⟨m, p, pendingReason c⟩) ∧
    utf8DecodeStrict [0x41, 0xFF, 0x42] = none ∧
    utf8DecodeReplace [0x41, 0xFF, 0x42] = ['A', replChar, 'B'] ∧
    classifyBytes 0 "f" [0x41, 0xFF, 0x42] = some ⟨0, "f", "MISSING ISSUE REVIEW section"⟩ := by
  have h1 : utf8DecodeReplace [0x41, 0xFF, 0x42] = ['A', replChar, 'B'] := by
    simp [utf8DecodeReplace, isCont]
  refine ⟨fun m p bytes => classifyFile_shape ⟨m, p, splitlines (utf8DecodeReplace bytes)⟩,
    by decide, h1, ?_⟩
  rw [classifyBytes, h1]
  decide

end FindUnhandledReviews
